import Mathlib

/-!
A verification development for the database release manifest resolution and
installation manager of the `nohuman` tool (`src/download.rs`, with the shared
directory validator from `src/lib.rs`).

The Rust code is shallowly embedded:

* The filesystem is a tree of named entries (`FsEntry`); a directory is an
  association list from names to entries, in directory-iteration order.
* External effects (the HTTP download, the MD5 hash of the downloaded bytes,
  gzip+tar extraction, and whether removing the temporary file fails) are
  supplied as an explicit environment `Env`; the pure logic of `download.rs`
  is translated function by function.
* `jiff::civil::Date` parsing of `YYYY-MM-DD` strings is modelled by
  `parse_added_date`, returning the date encoded as `y*10000 + m*100 + d`
  (an encoding that is strictly monotone in calendar order).
* The `toml` serialization of `InstalledMetadata` (two string fields written
  as basic strings) is modelled by an explicit encoder/escaper and the
  matching parser.
-/

namespace Nohuman

/-- File contents are character lists; downloaded payloads are byte lists. -/
abbrev FileData := List Char

/-- A filesystem node: a plain file with contents, or a directory holding
named entries in iteration order. -/
inductive FsEntry where
  | file (content : FileData)
  | dir (entries : List (String × FsEntry))

/-- A directory's entry list. -/
abbrev DirEntries := List (String × FsEntry)

/-- Look up the entry called `name` (models `Path::join` + `exists`/read). -/
def getEntry : DirEntries → String → Option FsEntry
  | [], _ => none
  | (k, e) :: rest, name => if k = name then some e else getEntry rest name

/-- Replace (or create) the entry called `name`.  Filesystem names are unique,
so the previous binding is dropped. -/
def setEntry : DirEntries → String → FsEntry → DirEntries
  | [], name, e => [(name, e)]
  | (k, e0) :: rest, name, e =>
    if k = name then setEntry rest name e else (k, e0) :: setEntry rest name e

/-- Whether an optional entry is a plain file. -/
def entryIsFile : Option FsEntry → Bool
  | some (.file _) => true
  | _ => false

/-- `const METADATA_FILE` in `download.rs`. -/
def METADATA_FILE : String := "nohuman-db.toml"

/-- `const LEGACY_ADDED_DATE` in `download.rs`. -/
def LEGACY_ADDED_DATE : String := "1970-01-01"

/-- The `required_files` list of `validate_db_directory` in `lib.rs`. -/
def requiredFiles : List String := ["hash.k2d", "opts.k2d", "taxo.k2d"]

/-- The error enum `DownloadError` of `download.rs` (payloads of the
transparent IO/reqwest wrappers are abstracted away). -/
inductive DownloadError where
  | DownloadFailed
  | Md5Mismatch
  | ExtractionFailed
  | ConfigDownloadFailed
  | ConfigParseFailed
  | MetadataParseFailed (path : String)
  | UnknownDatabaseVersion (version : String)
  | NoDatabasesAvailable
  | InvalidDate (raw : String)
  | Md5Error
  | IoError
  | ReqwestError
deriving DecidableEq

/-- `struct DatabaseRelease` of `download.rs`. -/
structure DatabaseRelease where
  version : String
  url : String
  md5 : String
  added : String
deriving DecidableEq

/-- `struct DatabaseConfig` of `download.rs`. -/
structure DatabaseConfig where
  default_version : Option String
  databases : List DatabaseRelease
deriving DecidableEq

/-- `enum DbSelection` of `download.rs`. -/
inductive DbSelection where
  | Latest
  | Version (version : String)
  | All
deriving DecidableEq

/-- `struct InstalledMetadata` of `download.rs`. -/
structure InstalledMetadata where
  version : String
  added : String
deriving DecidableEq

/-- `struct InstalledDatabase` of `download.rs`; `path` is relative to the
database root (`[]` is the root itself, `[v]` is the subdirectory `v`). -/
structure InstalledDatabase where
  version : String
  path : List String
  added : String
deriving DecidableEq

/-! ## Date handling (`parse_added_date`, `date_sort_key`) -/

/-- Gregorian leap-year test, as used by `jiff::civil::Date`. -/
def isLeapYear (y : Nat) : Bool :=
  y % 4 == 0 && (y % 100 != 0 || y % 400 == 0)

/-- Days in month `m` of year `y`. -/
def daysInMonth (y m : Nat) : Nat :=
  if m == 2 then (if isLeapYear y then 29 else 28)
  else if m == 4 || m == 6 || m == 9 || m == 11 then 30
  else 31

/-- Numeric value of a decimal digit character. -/
def digitVal (c : Char) : Nat := c.toNat - 48

/-- Model of `Date::from_str` (`jiff`) on `YYYY-MM-DD` strings: a valid
calendar date is returned encoded as `y*10000 + m*100 + d`, which is strictly
monotone in the chronological (`(y, m, d)` lexicographic) order used by
`Date`'s `Ord`; anything else fails, as `parse_added_date` maps parse errors
to `InvalidDate`. -/
def parse_added_date (s : String) : Option Nat :=
  match s.data with
  | [y1, y2, y3, y4, h1, m1, m2, h2, d1, d2] =>
    if (h1 == '-' && h2 == '-') &&
        [y1, y2, y3, y4, m1, m2, d1, d2].all Char.isDigit then
      let y := ((digitVal y1 * 10 + digitVal y2) * 10 + digitVal y3) * 10 + digitVal y4
      let m := digitVal m1 * 10 + digitVal m2
      let d := digitVal d1 * 10 + digitVal d2
      if (1 ≤ m && m ≤ 12) && (1 ≤ d && d ≤ daysInMonth y m) then
        some (y * 10000 + m * 100 + d)
      else none
    else none
  | _ => none

/-- `date_sort_key` of `download.rs`: parse the date, falling back to the
parsed `LEGACY_ADDED_DATE` (1970-01-01, encoded `19700101`) on failure. -/
def date_sort_key (raw : String) : Nat :=
  match parse_added_date raw with
  | some d => d
  | none => 19700101

/-! ## `Iterator::max_by` -/

/-- Rust's `Iterator::max_by`: a left fold in which a later element replaces
the accumulator unless the accumulator compares strictly greater, so among
equal maxima the last element wins. -/
def max_by (cmp : α → α → Ordering) (l : List α) : Option α :=
  l.foldl
    (fun acc x =>
      match acc with
      | none => some x
      | some a => if cmp a x = .gt then some a else some x)
    none

/-- The comparator `date_sort_key(&a.added).cmp(&date_sort_key(&b.added))`
used both by `latest_release` and `latest_installed_database`. -/
def addedCmp (a b : DatabaseRelease) : Ordering :=
  compare (date_sort_key a.added) (date_sort_key b.added)

/-- One step of the `max_by` fold once the accumulator is populated. -/
def maxStep (cmp : α → α → Ordering) (a x : α) : α :=
  if cmp a x = .gt then a else x

/-- The comparator on a numeric key.  Both `latest_release` and
`latest_installed_database` compare `date_sort_key` values this way. -/
def keyCmp (key : α → Nat) (a b : α) : Ordering := compare (key a) (key b)

/-! ## Manifest resolution (`find_release`, `latest_release`,
selection logic of `download_database`) -/

/-- `DatabaseConfig::find_release`. -/
def DatabaseConfig.find_release (c : DatabaseConfig) (version : String) :
    Option DatabaseRelease :=
  c.databases.find? (fun db => db.version == version)

/-- `DatabaseConfig::latest_release`: if `default_version` is set, return
`find_release(default_version)` (even when that is `None`); otherwise the
`max_by` of the releases under the date comparator. -/
def DatabaseConfig.latest_release (c : DatabaseConfig) : Option DatabaseRelease :=
  match c.default_version with
  | some default_version => c.find_release default_version
  | none => max_by addedCmp c.databases

/-- The selection logic of `download_database` (lines 117-135): the `match`
on the selection followed by the `releases.is_empty()` check.  The network
fetch of the config and the per-release install loop are factored out; this
is the pure resolution step applied to an already-fetched manifest. -/
def resolve_selection (config : DatabaseConfig) (selection : DbSelection) :
    Except DownloadError (List DatabaseRelease) :=
  let step : Except DownloadError (List DatabaseRelease) :=
    match selection with
    | .Latest =>
      match config.latest_release with
      | some release => .ok [release]
      | none => .error .NoDatabasesAvailable
    | .Version version =>
      match config.find_release version with
      | some release => .ok [release]
      | none => .error (.UnknownDatabaseVersion version)
    | .All => .ok config.databases
  match step with
  | .error e => .error e
  | .ok releases =>
    if releases.isEmpty then .error .NoDatabasesAvailable else .ok releases

/-! ## TOML serialization of `InstalledMetadata`

`write_metadata` calls `toml::to_string`, which renders the two string fields
as TOML basic strings (`key = "value"`, special characters backslash-escaped);
`read_metadata` calls `toml::from_str`.  The encoder below reproduces the
serialized shape and the parser inverts it; on content that is not of this
shape the parser fails, as `toml::from_str` does on malformed metadata. -/

/-- Escape one character of a TOML basic string. -/
def escapeChar (c : Char) : List Char :=
  if c = '\\' then ['\\', '\\']
  else if c = '"' then ['\\', '"']
  else if c = '\n' then ['\\', 'n']
  else if c = '\t' then ['\\', 't']
  else if c = '\r' then ['\\', 'r']
  else [c]

/-- Escape a whole string for a TOML basic string literal. -/
def escapeStr : List Char → List Char
  | [] => []
  | c :: rest => escapeChar c ++ escapeStr rest

/-- The literal `version = "` opening the serialized metadata. -/
def litVersion : List Char := "version = \"".data

/-- The literal `added = "` opening the second serialized field. -/
def litAdded : List Char := "added = \"".data

/-- The serialized form `toml::to_string` produces for `InstalledMetadata`. -/
def tomlEncodeMetadata (m : InstalledMetadata) : List Char :=
  litVersion ++
    (escapeStr m.version.data ++
      ('"' :: '\n' :: (litAdded ++ (escapeStr m.added.data ++ ('"' :: '\n' :: [])))))

/-- Decode one escape character of a TOML basic string. -/
def unescapeChar (c : Char) : Option Char :=
  if c = '\\' then some '\\'
  else if c = '"' then some '"'
  else if c = 'n' then some '\n'
  else if c = 't' then some '\t'
  else if c = 'r' then some '\r'
  else none

/-- Parse the body of a TOML basic string up to its closing quote, returning
the decoded string and the remaining input. -/
def parseStrBody : List Char → Option (List Char × List Char)
  | [] => none
  | c :: rest =>
    if c = '"' then some ([], rest)
    else if c = '\\' then
      match rest with
      | [] => none
      | d :: rest2 =>
        match unescapeChar d with
        | some u =>
          match parseStrBody rest2 with
          | some (s, r) => some (u :: s, r)
          | none => none
        | none => none
    else
      match parseStrBody rest with
      | some (s, r) => some (c :: s, r)
      | none => none

/-- Consume an expected literal prefix. -/
def dropLit : List Char → List Char → Option (List Char)
  | [], rest => some rest
  | l :: ls, rest =>
    match rest with
    | [] => none
    | c :: cs => if c = l then dropLit ls cs else none

/-- Model of `toml::from_str::<InstalledMetadata>` on the canonical
serialized shape. -/
def tomlParseMetadata (content : FileData) : Option InstalledMetadata :=
  match dropLit litVersion content with
  | none => none
  | some r1 =>
    match parseStrBody r1 with
    | none => none
    | some (v, r2) =>
      match dropLit ('\n' :: litAdded) r2 with
      | none => none
      | some r3 =>
        match parseStrBody r3 with
        | none => none
        | some (a, r4) =>
          if r4 = ['\n'] then some ⟨String.mk v, String.mk a⟩ else none

/-! ## `validate_db_directory` (`lib.rs`) -/

/-- Where `validate_db_directory` found the marker files: the candidate
directory itself, or its nested `db` subdirectory. -/
inductive DbPathKind where
  | direct
  | nested
deriving DecidableEq

/-- `validate_db_directory` of `lib.rs`: the path must be a directory
containing all of `requiredFiles` (an entry of any kind satisfies
`Path::exists`), or have a `db` subdirectory containing them all; a plain
file fails both checks. -/
def validate_db_directory (e : FsEntry) : Option DbPathKind :=
  match e with
  | .file _ => none
  | .dir entries =>
    if requiredFiles.all (fun f => (getEntry entries f).isSome) then
      some .direct
    else
      match getEntry entries "db" with
      | some (.dir sub) =>
        if requiredFiles.all (fun f => (getEntry sub f).isSome) then
          some .nested
        else none
      | _ => none

/-! ## Metadata persistence (`write_metadata`, `read_metadata`) -/

/-- `write_metadata`: serialize the metadata and write it to
`dir.join(METADATA_FILE)`; returns the updated directory. -/
def write_metadata (dir : DirEntries) (metadata : InstalledMetadata) : DirEntries :=
  setEntry dir METADATA_FILE (.file (tomlEncodeMetadata metadata))

/-- `read_metadata`: read `dir.join(METADATA_FILE)` (an absent entry or a
directory makes `fs::read_to_string` fail with an IO error) and parse it. -/
def read_metadata (dir : DirEntries) : Except DownloadError InstalledMetadata :=
  match getEntry dir METADATA_FILE with
  | some (.file content) =>
    match tomlParseMetadata content with
    | some m => .ok m
    | none => .error (.MetadataParseFailed METADATA_FILE)
  | _ => .error .IoError

/-- Whether an `Except` is `ok` (`Result::is_ok` / `is_err` negated). -/
def exceptIsOk : Except ε α → Bool
  | .ok _ => true
  | .error _ => false

/-! ## Scanning (`installed_databases`, `find_installed_database`,
`latest_installed_database`) -/

/-- The body of the `read_dir` loop of `installed_databases` for a single
entry: files are skipped, and a subdirectory is emitted when its metadata is
readable and it passes `validate_db_directory` (its version and date come
from the metadata, its path is the subdirectory). -/
def scan_entry (p : String × FsEntry) : Option InstalledDatabase :=
  match p.2 with
  | .file _ => none
  | .dir d =>
    match read_metadata d with
    | .ok meta =>
      if (validate_db_directory (.dir d)).isSome then
        some ⟨meta.version, [p.1], meta.added⟩
      else none
    | .error _ => none

/-- `installed_databases`: scan the immediate entries of the root, then
append the synthetic legacy entry when the root itself passes
`validate_db_directory` and has no readable metadata file. -/
def installed_databases (root : DirEntries) : List InstalledDatabase :=
  root.filterMap scan_entry ++
    (if (validate_db_directory (.dir root)).isSome &&
        !(exceptIsOk (read_metadata root)) then
      [⟨"legacy", [], LEGACY_ADDED_DATE⟩]
    else [])

/-- `find_installed_database`: first scanned entry with the given version. -/
def find_installed_database (root : DirEntries) (version : String) :
    Option InstalledDatabase :=
  (installed_databases root).find? (fun db => db.version == version)

/-- The comparator of `latest_installed_database`. -/
def installedCmp (a b : InstalledDatabase) : Ordering :=
  compare (date_sort_key a.added) (date_sort_key b.added)

/-- `latest_installed_database`: `max_by` of the scan under the date
comparator. -/
def latest_installed_database (root : DirEntries) : Option InstalledDatabase :=
  max_by installedCmp (installed_databases root)

/-! ## Installation (`download_release`, `download_and_extract_tarball`)

The external world of one `download_release` call is an `Env`: what the
network returns for a URL, the MD5 hash of a byte payload, the directory tree
a payload extracts to (`none` when `Archive::unpack` fails), and whether
removing the temporary file fails. -/

/-- Result of the HTTP GET in `download_from_url`: a transport error
(`reqwest::Error`), a non-200 status, or the downloaded bytes. -/
inductive NetResult where
  | transportErr
  | httpErr
  | ok (bytes : List Nat)

/-- The environment of external effects for one installation. -/
structure Env where
  net : String → NetResult
  md5 : List Nat → String
  extract : List Nat → Option DirEntries
  removeTempFails : Bool

/-- `download_and_extract_tarball`: download to a temporary file, check the
streamed MD5 against the expected value (`Md5Mismatch` on disagreement,
before any extraction), unpack into the target directory, then remove the
temporary file — a removal failure is propagated as an IO error by the
trailing `?`.  Returns the outcome together with the resulting contents of
the target directory. -/
def download_and_extract_tarball (env : Env) (url : String) (md5 : String)
    (target : DirEntries) : Except DownloadError Unit × DirEntries :=
  match env.net url with
  | .transportErr => (.error .ReqwestError, target)
  | .httpErr => (.error .DownloadFailed, target)
  | .ok bytes =>
    if env.md5 bytes = md5 then
      match env.extract bytes with
      | none => (.error .ExtractionFailed, target)
      | some tree =>
        let unpacked := tree.foldl (fun t p => setEntry t p.1 p.2) target
        if env.removeTempFails then (.error .IoError, unpacked)
        else (.ok (), unpacked)
    else (.error .Md5Mismatch, target)

/-- `download_release`: the idempotency check via `find_installed_database`
(an early return with the existing entry), then removal of a stale target
(`remove_dir_all` fails with an IO error when the target is a plain file),
creation of a fresh empty target, download+verify+extract, metadata write,
and final re-validation.  Returns the outcome together with the resulting
root directory contents.  (`fs::create_dir_all(database_root)` is the
identity here because the modelled state is the root's own entry list.) -/
def download_release (env : Env) (root : DirEntries) (release : DatabaseRelease) :
    Except DownloadError InstalledDatabase × DirEntries :=
  match find_installed_database root release.version with
  | some existing => (.ok existing, root)
  | none =>
    if entryIsFile (getEntry root release.version) then (.error .IoError, root)
    else
      let root1 := setEntry root release.version (.dir [])
      match download_and_extract_tarball env release.url release.md5 [] with
      | (.error e, target1) =>
        (.error e, setEntry root1 release.version (.dir target1))
      | (.ok _, target1) =>
        let target2 := write_metadata target1 ⟨release.version, release.added⟩
        let root2 := setEntry root1 release.version (.dir target2)
        if (validate_db_directory (.dir target2)).isSome then
          (.ok ⟨release.version, [release.version], release.added⟩, root2)
        else (.error .ExtractionFailed, root2)

/-! ## Concrete fixtures used by witnesses and counterexamples -/

/-- The three Kraken marker files, as plain files. -/
def markersDir : DirEntries :=
  [("hash.k2d", .file []), ("opts.k2d", .file []), ("taxo.k2d", .file [])]

/-- A sample metadata value. -/
def exMetaV1 : InstalledMetadata := ⟨"v1", "2024-01-01"⟩

/-- A valid versioned install directory: marker files plus metadata. -/
def subV1 : DirEntries := write_metadata markersDir exMetaV1

/-- A root containing one valid versioned install. -/
def rootV1 : DirEntries := [("v1", .dir subV1)]

/-- The scan entry produced by `rootV1`. -/
def dbV1 : InstalledDatabase := ⟨"v1", ["v1"], "2024-01-01"⟩

/-- A release matching the install in `rootV1`. -/
def relV1 : DatabaseRelease := ⟨"v1", "https://example.org/v1", "m", "2024-01-01"⟩

/-- An environment whose network always fails. -/
def envNoNet : Env := ⟨fun _ => .transportErr, fun _ => "", fun _ => none, false⟩

/-- A manifest whose `default_version` names no release. -/
def cfgMissingDefault : DatabaseConfig := ⟨some "X", [relV1]⟩

/-- Two releases sharing one added date, to exercise the tie-break. -/
def relTieA : DatabaseRelease := ⟨"tieA", "uA", "mA", "2024-01-01"⟩

/-- Second release of the tie, declared later in the manifest. -/
def relTieB : DatabaseRelease := ⟨"tieB", "uB", "mB", "2024-01-01"⟩

/-- A manifest with an exact date tie and no default version. -/
def cfgTie : DatabaseConfig := ⟨none, [relTieA, relTieB]⟩

/-- An older install (metadata dated 2023). -/
def metaOld : InstalledMetadata := ⟨"HPRC.r1", "2023-01-01"⟩

/-- A newer install (metadata dated 2024). -/
def metaNew : InstalledMetadata := ⟨"HPRC.r2", "2024-01-01"⟩

/-- A root with two installed versions dated 2023 and 2024. -/
def rootTwo : DirEntries :=
  [("HPRC.r1", .dir (write_metadata markersDir metaOld)),
   ("HPRC.r2", .dir (write_metadata markersDir metaNew))]

/-- The newer scan entry of `rootTwo`. -/
def dbNew : InstalledDatabase := ⟨"HPRC.r2", ["HPRC.r2"], "2024-01-01"⟩

/-- A root with the marker files directly AND a valid versioned
subdirectory. -/
def rootC5 : DirEntries := ("v9", .dir subV1) :: markersDir

/-- A root whose `db` subdirectory holds the marker files. -/
def rootC10 : DirEntries := [("db", .dir markersDir)]

/-- The environment for the C8 scenario: download, checksum and extraction
succeed, but removing the temporary file fails. -/
def envRm : Env := ⟨fun _ => .ok [1], fun _ => "h", fun _ => some markersDir, true⟩

/-- A release whose checksum matches what `envRm` hashes. -/
def relRm : DatabaseRelease := ⟨"vY", "uY", "h", "2024-01-01"⟩

/-! ## Helper lemmas about directory entries -/

theorem getEntry_setEntry_self (l : DirEntries) (n : String) (e : FsEntry) :
    getEntry (setEntry l n e) n = some e := by
  induction l with
  | nil => simp [setEntry, getEntry]
  | cons a as ih =>
    by_cases h : a.1 = n
    · simpa [setEntry, h] using ih
    · simpa [setEntry, getEntry, h] using ih

theorem getEntry_setEntry_ne (l : DirEntries) (n m : String) (e : FsEntry)
    (h : m ≠ n) : getEntry (setEntry l n e) m = getEntry l m := by
  induction l with
  | nil => simp [setEntry, getEntry, Ne.symm h]
  | cons a as ih =>
    by_cases hk : a.1 = n
    · have hm : a.1 ≠ m := by rw [hk]; exact Ne.symm h
      simpa [setEntry, getEntry, hk, hm, Ne.symm h] using ih
    · by_cases hm : a.1 = m
      · simp [setEntry, getEntry, hk, hm, h]
      · simpa [setEntry, getEntry, hk, hm] using ih

theorem setEntry_setEntry (l : DirEntries) (n : String) (a b : FsEntry) :
    setEntry (setEntry l n a) n b = setEntry l n b := by
  induction l with
  | nil => simp [setEntry]
  | cons x xs ih =>
    by_cases h : x.1 = n
    · simpa [setEntry, h] using ih
    · simpa [setEntry, h] using ih

theorem getEntry_nil (n : String) : getEntry [] n = none := rfl

theorem read_metadata_nil : read_metadata [] = .error .IoError := rfl

/-! ## Characterization of `max_by` -/

theorem max_by_cons (cmp : α → α → Ordering) (x : α) (xs : List α) :
    max_by cmp (x :: xs) = some (xs.foldl (maxStep cmp) x) := by
  unfold max_by
  simp only [List.foldl_cons]
  induction xs generalizing x with
  | nil => rfl
  | cons y ys ih =>
    simp only [List.foldl_cons]
    by_cases h : cmp x y = .gt <;> simp [maxStep, h, ih]

theorem max_by_eq_none_iff (cmp : α → α → Ordering) (l : List α) :
    max_by cmp l = none ↔ l = [] := by
  cases l with
  | nil => simp [max_by]
  | cons x xs => simp [max_by_cons]

theorem maxFrom_ub (key : α → Nat) (a : α) (l : List α) :
    key a ≤ key (l.foldl (maxStep (keyCmp key)) a) ∧
      ∀ x ∈ l, key x ≤ key (l.foldl (maxStep (keyCmp key)) a) := by
  induction l generalizing a with
  | nil => exact ⟨Nat.le_refl _, by simp⟩
  | cons y ys ih =>
    have hstep : key a ≤ key (maxStep (keyCmp key) a y) ∧
        key y ≤ key (maxStep (keyCmp key) a y) := by
      unfold maxStep keyCmp
      by_cases h : compare (key a) (key y) = Ordering.gt
      · have := Nat.compare_eq_gt.mp h
        simp [h]; omega
      · have : ¬ key y < key a := fun hlt => h (Nat.compare_eq_gt.mpr hlt)
        simp [h]; omega
    obtain ⟨iha, ihl⟩ := ih (maxStep (keyCmp key) a y)
    refine ⟨Nat.le_trans hstep.1 iha, ?_⟩
    intro x hx
    rcases List.mem_cons.mp hx with rfl | hx
    · exact Nat.le_trans hstep.2 iha
    · exact ihl x hx

theorem maxFrom_last (key : α → Nat) (a : α) (l : List α) :
    ∃ pre post, a :: l = pre ++ (l.foldl (maxStep (keyCmp key)) a) :: post ∧
      (∀ x ∈ pre, key x ≤ key (l.foldl (maxStep (keyCmp key)) a)) ∧
      (∀ x ∈ post, key x < key (l.foldl (maxStep (keyCmp key)) a)) := by
  induction l generalizing a with
  | nil => exact ⟨[], [], rfl, by simp, by simp⟩
  | cons y ys ih =>
    simp only [List.foldl_cons]
    by_cases h : compare (key a) (key y) = Ordering.gt
    · -- the accumulator survives: `maxStep a y = a`, and `key y < key a`
      have hy : key y < key a := Nat.compare_eq_gt.mp h
      have hstep : maxStep (keyCmp key) a y = a := by simp [maxStep, keyCmp, h]
      rw [hstep]
      obtain ⟨pre, post, heq, hpre, hpost⟩ := ih a
      cases pre with
      | nil =>
        simp only [List.nil_append, List.cons.injEq] at heq
        obtain ⟨h1, rfl⟩ := heq
        refine ⟨[], y :: ys, ?_, by simp, ?_⟩
        · rw [List.nil_append, ← h1]
        · intro x hx
          rcases List.mem_cons.mp hx with rfl | hx
          · rw [← h1]; exact hy
          · exact hpost x hx
      | cons p ps =>
        simp only [List.cons_append, List.cons.injEq] at heq
        obtain ⟨rfl, heq⟩ := heq
        refine ⟨a :: y :: ps, post, ?_, ?_, hpost⟩
        · rw [List.cons_append, List.cons_append]
          conv_lhs => rw [heq]
        · intro x hx
          have h1 : key a ≤ key (ys.foldl (maxStep (keyCmp key)) a) :=
            hpre a (List.mem_cons_self _ _)
          rcases List.mem_cons.mp hx with rfl | hx
          · exact h1
          · rcases List.mem_cons.mp hx with rfl | hx
            · omega
            · exact hpre x (List.mem_cons_of_mem _ hx)
    · -- the new element wins: `maxStep a y = y`, and `key a ≤ key y`
      have ha : key a ≤ key y := by
        have hno : ¬ key y < key a := fun hlt => h (Nat.compare_eq_gt.mpr hlt)
        omega
      have hstep : maxStep (keyCmp key) a y = y := by simp [maxStep, keyCmp, h]
      rw [hstep]
      obtain ⟨pre, post, heq, hpre, hpost⟩ := ih y
      cases pre with
      | nil =>
        simp only [List.nil_append, List.cons.injEq] at heq
        obtain ⟨h1, rfl⟩ := heq
        refine ⟨[a], ys, ?_, ?_, hpost⟩
        · rw [List.cons_append, List.nil_append, ← h1]
        · intro x hx
          rcases List.mem_cons.mp hx with rfl | hx
          · rw [← h1]; exact ha
          · cases hx
      | cons p ps =>
        simp only [List.cons_append, List.cons.injEq] at heq
        obtain ⟨rfl, heq⟩ := heq
        refine ⟨a :: y :: ps, post, ?_, ?_, hpost⟩
        · rw [List.cons_append, List.cons_append]
          conv_lhs => rw [heq]
        · intro x hx
          have h1 : key y ≤ key (ys.foldl (maxStep (keyCmp key)) y) :=
            hpre y (List.mem_cons_self _ _)
          rcases List.mem_cons.mp hx with rfl | hx
          · omega
          · rcases List.mem_cons.mp hx with rfl | hx
            · exact h1
            · exact hpre x (List.mem_cons_of_mem _ hx)

/-- `validate_db_directory` only inspects the marker-file entries and the
`db` entry, so two directories agreeing there validate identically. -/
theorem validate_congr (a b : DirEntries)
    (hh : getEntry a "hash.k2d" = getEntry b "hash.k2d")
    (ho : getEntry a "opts.k2d" = getEntry b "opts.k2d")
    (ht : getEntry a "taxo.k2d" = getEntry b "taxo.k2d")
    (hd : getEntry a "db" = getEntry b "db") :
    validate_db_directory (.dir a) = validate_db_directory (.dir b) := by
  unfold validate_db_directory
  simp only [requiredFiles, List.all_cons, List.all_nil, hh, ho, ht, hd]

/-! ## Round-trip of the metadata serialization -/

theorem dropLit_self (lit rest : List Char) : dropLit lit (lit ++ rest) = some rest := by
  induction lit with
  | nil => rfl
  | cons l ls ih => simp [dropLit, ih]

theorem parseStrBody_escape (s rest : List Char) :
    parseStrBody (escapeStr s ++ '"' :: rest) = some (s, rest) := by
  induction s with
  | nil =>
    rw [escapeStr, List.nil_append, parseStrBody.eq_def]
    simp
  | cons c cs ih =>
    by_cases h1 : c = '\\'
    · subst h1
      rw [escapeStr, escapeChar]
      simp only [if_pos rfl, List.cons_append, List.nil_append]
      rw [parseStrBody.eq_def]
      simp [unescapeChar, ih]
    · by_cases h2 : c = '"'
      · subst h2
        rw [escapeStr, escapeChar]
        simp only [if_neg h1, if_pos rfl, List.cons_append, List.nil_append]
        rw [parseStrBody.eq_def]
        simp [unescapeChar, ih]
      · by_cases h3 : c = '\n'
        · subst h3
          rw [escapeStr, escapeChar]
          simp only [if_neg h1, if_neg h2, if_pos rfl, List.cons_append, List.nil_append]
          rw [parseStrBody.eq_def]
          simp [unescapeChar, ih]
        · by_cases h4 : c = '\t'
          · subst h4
            rw [escapeStr, escapeChar]
            simp only [if_neg h1, if_neg h2, if_neg h3, if_pos rfl, List.cons_append,
              List.nil_append]
            rw [parseStrBody.eq_def]
            simp [unescapeChar, ih]
          · by_cases h5 : c = '\r'
            · subst h5
              rw [escapeStr, escapeChar]
              simp only [if_neg h1, if_neg h2, if_neg h3, if_neg h4, if_pos rfl,
                List.cons_append, List.nil_append]
              rw [parseStrBody.eq_def]
              simp [unescapeChar, ih]
            · rw [escapeStr, escapeChar]
              simp only [if_neg h1, if_neg h2, if_neg h3, if_neg h4, if_neg h5,
                List.cons_append, List.nil_append]
              rw [parseStrBody.eq_def]
              simp [h1, h2, ih]

theorem tomlParse_encode (m : InstalledMetadata) :
    tomlParseMetadata (tomlEncodeMetadata m) = some m := by
  have hdrop : ∀ r : List Char,
      dropLit ('\n' :: litAdded) ('\n' :: (litAdded ++ r)) = some r := by
    intro r
    have := dropLit_self ('\n' :: litAdded) r
    simpa using this
  obtain ⟨⟨v⟩, ⟨a⟩⟩ := m
  simp only [tomlParseMetadata, tomlEncodeMetadata, dropLit_self, parseStrBody_escape,
    hdrop, if_pos rfl, if_true]

/-! ## Claims -/

/-- Claim C1: if `find_installed_database` already returns an installed database
for the release's version, `download_release` returns exactly that database
and leaves the root untouched; the conclusion holds for *every* environment,
in particular one whose network always fails, so no download is performed and
no filesystem mutation under the root takes place. -/
theorem claim_C1_install_idempotent (env : Env) (root : DirEntries)
    (release : DatabaseRelease) (db : InstalledDatabase)
    (h : find_installed_database root release.version = some db) :
    download_release env root release = (.ok db, root) := by
  unfold download_release
  rw [h]

/-- Witness for C1 at a concrete root holding version `v1`, under an
environment whose network always fails. -/
theorem claim_C1_install_idempotent_witness :
    find_installed_database rootV1 relV1.version = some dbV1 ∧
    download_release envNoNet rootV1 relV1 = (.ok dbV1, rootV1) :=
  ⟨by decide, claim_C1_install_idempotent envNoNet rootV1 relV1 dbV1 (by decide)⟩

/-- Claim C3, counterexample: on a manifest with zero releases, the `Version` (Specific) policy fails with `UnknownDatabaseVersion`, not with
`NoDatabasesAvailable` as the claim states. -/
theorem claim_C3_counterexample :
    resolve_selection ⟨none, []⟩ (.Version "X") =
        .error (.UnknownDatabaseVersion "X") ∧
    DownloadError.UnknownDatabaseVersion "X" ≠ DownloadError.NoDatabasesAvailable :=
  ⟨rfl, by decide⟩

/-- Claim C3, amended: on a manifest with zero releases, `Latest` and `All`
fail with `NoDatabasesAvailable`, while `Version v` fails with
`UnknownDatabaseVersion v`. -/
theorem claim_C3_empty_manifest (cfg : DatabaseConfig) (h : cfg.databases = []) :
    resolve_selection cfg .Latest = .error .NoDatabasesAvailable ∧
    resolve_selection cfg .All = .error .NoDatabasesAvailable ∧
    ∀ v, resolve_selection cfg (.Version v) = .error (.UnknownDatabaseVersion v) := by
  refine ⟨?_, ?_, ?_⟩
  · cases hd : cfg.default_version with
    | none =>
      simp [resolve_selection, DatabaseConfig.latest_release, hd, h, max_by]
    | some d =>
      simp [resolve_selection, DatabaseConfig.latest_release,
        DatabaseConfig.find_release, hd, h]
  · simp [resolve_selection, h]
  · intro v
    simp [resolve_selection, DatabaseConfig.find_release, h]

/-- Witness for C3 on the empty manifest with a set default version. -/
theorem claim_C3_empty_manifest_witness :
    resolve_selection ⟨some "d", []⟩ .Latest = .error .NoDatabasesAvailable ∧
    resolve_selection ⟨some "d", []⟩ .All = .error .NoDatabasesAvailable ∧
    resolve_selection ⟨some "d", []⟩ (.Version "X") =
      .error (.UnknownDatabaseVersion "X") := by
  have h := claim_C3_empty_manifest ⟨some "d", []⟩ rfl
  exact ⟨h.1, h.2.1, h.2.2 "X"⟩

/-- Claim C4, counterexample: when `default_version` is `X` but no release is
called `X`, resolving `Latest` fails with `NoDatabasesAvailable`, not with
`UnknownDatabaseVersion` as the claim states. -/
theorem claim_C4_counterexample :
    resolve_selection cfgMissingDefault .Latest = .error .NoDatabasesAvailable ∧
    DownloadError.NoDatabasesAvailable ≠ DownloadError.UnknownDatabaseVersion "X" :=
  ⟨rfl, by decide⟩

/-- Claim C4, amended: when `default_version` is set to a version absent from
the release list, `latest_release` is `None` and resolving `Latest` fails
with `NoDatabasesAvailable`; in particular there is no fallback to the
release with the maximum added date. -/
theorem claim_C4_default_version_missing (cfg : DatabaseConfig) (d : String)
    (h1 : cfg.default_version = some d) (h2 : cfg.find_release d = none) :
    resolve_selection cfg .Latest = .error .NoDatabasesAvailable ∧
    cfg.latest_release = none := by
  have hl : cfg.latest_release = none := by
    unfold DatabaseConfig.latest_release
    rw [h1]
    exact h2
  refine ⟨?_, hl⟩
  simp [resolve_selection, hl]

/-- Witness for C4 on a one-release manifest whose default version is
missing. -/
theorem claim_C4_default_version_missing_witness :
    resolve_selection cfgMissingDefault .Latest = .error .NoDatabasesAvailable ∧
    cfgMissingDefault.latest_release = none :=
  claim_C4_default_version_missing cfgMissingDefault "X" rfl rfl

/-- Claim C9: writing metadata into a directory and reading it back yields the
same metadata value (so identical `version` and `added` fields), for every
directory and every metadata value. -/
theorem claim_C9_metadata_roundtrip (dir : DirEntries) (m : InstalledMetadata) :
    read_metadata (write_metadata dir m) = .ok m := by
  simp only [read_metadata, write_metadata, getEntry_setEntry_self, tomlParse_encode]

/-- Claim C6: on a non-empty manifest with `default_version` unset, resolving
`Latest` returns a release `r` from the list whose `date_sort_key` is maximal
among all releases, and every release declared after `r` in manifest order
has a strictly smaller key — so among releases tied at the maximum date, the
one declared last wins. -/
theorem claim_C6_latest_is_last_max (cfg : DatabaseConfig)
    (h1 : cfg.default_version = none) (h2 : cfg.databases ≠ []) :
    ∃ r pre post, cfg.latest_release = some r ∧
      resolve_selection cfg .Latest = .ok [r] ∧
      cfg.databases = pre ++ r :: post ∧
      (∀ x ∈ cfg.databases, date_sort_key x.added ≤ date_sort_key r.added) ∧
      (∀ x ∈ post, date_sort_key x.added < date_sort_key r.added) := by
  have hcmp : addedCmp = keyCmp (fun r : DatabaseRelease => date_sort_key r.added) :=
    rfl
  obtain ⟨x, xs, hx⟩ := List.exists_cons_of_ne_nil h2
  have hlr : cfg.latest_release =
      some (xs.foldl
        (maxStep (keyCmp (fun r : DatabaseRelease => date_sort_key r.added))) x) := by
    unfold DatabaseConfig.latest_release
    rw [h1, hcmp, hx, max_by_cons]
  obtain ⟨pre, post, heq, hpre, hpost⟩ :=
    maxFrom_last (fun r : DatabaseRelease => date_sort_key r.added) x xs
  have hub := maxFrom_ub (fun r : DatabaseRelease => date_sort_key r.added) x xs
  refine ⟨_, pre, post, hlr, ?_, ?_, ?_, hpost⟩
  · simp [resolve_selection, hlr]
  · rw [hx]
    exact heq
  · intro z hz
    rw [hx] at hz
    rcases List.mem_cons.mp hz with rfl | hz
    · exact hub.1
    · exact hub.2 z hz

/-- Witness for C6 on a manifest with an exact date tie. -/
theorem claim_C6_latest_is_last_max_witness :
    ∃ r pre post, cfgTie.latest_release = some r ∧
      resolve_selection cfgTie .Latest = .ok [r] ∧
      cfgTie.databases = pre ++ r :: post ∧
      (∀ x ∈ cfgTie.databases, date_sort_key x.added ≤ date_sort_key r.added) ∧
      (∀ x ∈ post, date_sort_key x.added < date_sort_key r.added) :=
  claim_C6_latest_is_last_max cfgTie rfl (by decide)

/-- Claim C7: `latest_installed_database` is `None` exactly when the scan is
empty, and any returned entry belongs to the scan and has a maximal
`date_sort_key` — the key under which an unparseable `added` field (the
legacy entry included) counts as the epoch date 1970-01-01. -/
theorem claim_C7_latest_installed (root : DirEntries) :
    (latest_installed_database root = none ↔ installed_databases root = []) ∧
    ∀ db, latest_installed_database root = some db →
      db ∈ installed_databases root ∧
      ∀ x ∈ installed_databases root,
        date_sort_key x.added ≤ date_sort_key db.added := by
  have hcmp : installedCmp =
      keyCmp (fun d : InstalledDatabase => date_sort_key d.added) := rfl
  constructor
  · unfold latest_installed_database
    exact max_by_eq_none_iff _ _
  · intro db hdb
    unfold latest_installed_database at hdb
    cases hl : installed_databases root with
    | nil =>
      rw [hl] at hdb
      simp [max_by] at hdb
    | cons x xs =>
      rw [hl, hcmp, max_by_cons] at hdb
      have hdb' := Option.some.inj hdb
      have hub := maxFrom_ub (fun d : InstalledDatabase => date_sort_key d.added) x xs
      obtain ⟨pre, post, heq, _, _⟩ :=
        maxFrom_last (fun d : InstalledDatabase => date_sort_key d.added) x xs
      constructor
      · rw [← hdb', heq]
        exact List.mem_append_right _ (List.mem_cons_self _ _)
      · intro z hz
        rw [← hdb']
        rcases List.mem_cons.mp hz with rfl | hz
        · exact hub.1
        · exact hub.2 z hz

/-- Witness for C7 on a root with installs dated 2023 and 2024: the returned
entry is the 2024 one. -/
theorem claim_C7_latest_installed_witness :
    dbNew ∈ installed_databases rootTwo ∧
    ∀ x ∈ installed_databases rootTwo,
      date_sort_key x.added ≤ date_sort_key dbNew.added :=
  (claim_C7_latest_installed rootTwo).2 dbNew (by decide)

/-- Claim C5, counterexample: a root that contains the three marker files
directly and has no metadata file, but also holds a valid versioned
subdirectory, scans to two entries — the subdirectory entry followed by the
legacy entry — not to exactly one entry as the claim states. -/
theorem claim_C5_counterexample :
    (∀ f ∈ requiredFiles, (getEntry rootC5 f).isSome = true) ∧
    exceptIsOk (read_metadata rootC5) = false ∧
    installed_databases rootC5 ≠ [⟨"legacy", [], LEGACY_ADDED_DATE⟩] ∧
    installed_databases rootC5 =
      [⟨"v1", ["v9"], "2024-01-01"⟩, ⟨"legacy", [], LEGACY_ADDED_DATE⟩] := by
  decide

/-- Claim C5, amended: a root that contains the three marker files directly,
has no readable metadata file, and whose immediate entries contribute no
versioned scan entries, scans to exactly the synthetic legacy entry with
version `legacy`, the root itself as path, and added date 1970-01-01. -/
theorem claim_C5_legacy_scan (root : DirEntries)
    (hmark : ∀ f ∈ requiredFiles, (getEntry root f).isSome = true)
    (hmeta : exceptIsOk (read_metadata root) = false)
    (hsub : ∀ p ∈ root, scan_entry p = none) :
    installed_databases root = [⟨"legacy", [], LEGACY_ADDED_DATE⟩] := by
  unfold installed_databases
  have h1 : root.filterMap scan_entry = [] := List.filterMap_eq_nil_iff.mpr hsub
  have h2 : validate_db_directory (.dir root) = some .direct := by
    unfold validate_db_directory
    have hall : requiredFiles.all (fun f => (getEntry root f).isSome) = true :=
      List.all_eq_true.mpr hmark
    simp [hall]
  rw [h1, h2, hmeta]
  simp

/-- Witness for C5 on a root holding exactly the three marker files. -/
theorem claim_C5_legacy_scan_witness :
    installed_databases markersDir = [⟨"legacy", [], LEGACY_ADDED_DATE⟩] :=
  claim_C5_legacy_scan markersDir (by decide) (by decide) (by decide)

/-- Claim C10: a root with no metadata file and no direct marker files, whose
`db` subdirectory holds all three marker files, still scans to the synthetic
legacy entry, because the legacy check reuses `validate_db_directory`, which
also accepts the nested `db` layout. -/
theorem claim_C10_nested_db_legacy (root : DirEntries) (dbe : DirEntries)
    (hdb : getEntry root "db" = some (.dir dbe))
    (hmark : ∀ f ∈ requiredFiles, (getEntry dbe f).isSome = true)
    (hnodirect : ∀ f ∈ requiredFiles, (getEntry root f).isSome = false)
    (hmeta : exceptIsOk (read_metadata root) = false) :
    (⟨"legacy", [], LEGACY_ADDED_DATE⟩ : InstalledDatabase) ∈
      installed_databases root := by
  unfold installed_databases
  apply List.mem_append_right
  have h2 : validate_db_directory (.dir root) = some .nested := by
    unfold validate_db_directory
    have hda : requiredFiles.all (fun f => (getEntry dbe f).isSome) = true :=
      List.all_eq_true.mpr hmark
    have hdn : requiredFiles.all (fun f => (getEntry root f).isSome) = false := by
      have h0 := hnodirect "hash.k2d" (by simp [requiredFiles])
      simp only [requiredFiles, List.all_cons, h0, Bool.false_and]
    simp [validate_db_directory, hdn, hdb, hda]
  rw [h2, hmeta]
  simp

/-- Witness for C10 on the root `[db ↦ marker files]`. -/
theorem claim_C10_nested_db_legacy_witness :
    (⟨"legacy", [], LEGACY_ADDED_DATE⟩ : InstalledDatabase) ∈
      installed_databases rootC10 :=
  claim_C10_nested_db_legacy rootC10 markersDir rfl (by decide) (by decide)
    (by decide)

/-! ## The state after a failed install attempt -/

theorem scan_entry_empty_dir (v : String) : scan_entry (v, .dir []) = none := rfl

theorem mem_setEntry (l : DirEntries) (n : String) (e : FsEntry)
    (p : String × FsEntry) :
    p ∈ setEntry l n e → p = (n, e) ∨ (p ∈ l ∧ p.1 ≠ n) := by
  induction l with
  | nil =>
    intro hp
    simp only [setEntry, List.mem_singleton] at hp
    exact Or.inl hp
  | cons a as ih =>
    by_cases h : a.1 = n
    · simp only [setEntry, if_pos h]
      intro hp
      rcases ih hp with h1 | h2
      · exact Or.inl h1
      · exact Or.inr ⟨List.mem_cons_of_mem _ h2.1, h2.2⟩
    · simp only [setEntry, if_neg h]
      intro hp
      rcases List.mem_cons.mp hp with rfl | hp
      · exact Or.inr ⟨List.mem_cons_self _ _, h⟩
      · rcases ih hp with h1 | h2
        · exact Or.inl h1
        · exact Or.inr ⟨List.mem_cons_of_mem _ h2.1, h2.2⟩

theorem find_installed_eq_none_iff (root : DirEntries) (v : String) :
    find_installed_database root v = none ↔
      ∀ x ∈ installed_databases root, x.version ≠ v := by
  unfold find_installed_database
  rw [List.find?_eq_none]
  constructor <;> intro h x hx
  · have := h x hx
    simpa using this
  · simpa using h x hx

/-- Replacing the target subdirectory with a fresh empty directory cannot
make a version visible that was not visible before: the empty directory has
no metadata, every other subdirectory is untouched, and the synthetic legacy
entry (whose version is `legacy`) appears in the new root only if it already
appeared in the old one. -/
theorem find_after_reset (root : DirEntries) (v : String)
    (h : find_installed_database root v = none) :
    find_installed_database (setEntry root v (.dir [])) v = none := by
  rw [find_installed_eq_none_iff] at h ⊢
  intro x hx
  unfold installed_databases at hx
  rcases List.mem_append.mp hx with hx | hx
  · obtain ⟨p, hp, hpe⟩ := List.mem_filterMap.mp hx
    rcases mem_setEntry _ _ _ _ hp with rfl | ⟨hpl, _⟩
    · rw [scan_entry_empty_dir] at hpe
      cases hpe
    · have hmem : x ∈ installed_databases root := by
        unfold installed_databases
        exact List.mem_append_left _ (List.mem_filterMap.mpr ⟨p, hpl, hpe⟩)
      exact h x hmem
  · by_cases hv : v = "legacy"
    · subst hv
      have hcongr :
          validate_db_directory (.dir (setEntry root "legacy" (.dir []))) =
            validate_db_directory (.dir root) := by
        apply validate_congr <;> (apply getEntry_setEntry_ne; decide)
      have hmeta : read_metadata (setEntry root "legacy" (.dir [])) =
          read_metadata root := by
        unfold read_metadata
        rw [getEntry_setEntry_ne _ _ _ _ (by decide)]
      rw [hcongr, hmeta] at hx
      have hmem : x ∈ installed_databases root := by
        unfold installed_databases
        exact List.mem_append_right _ hx
      exact h x hmem
    · have hxl : x = ⟨"legacy", [], LEGACY_ADDED_DATE⟩ := by
        split at hx
        · simpa using hx
        · simp at hx
      intro hveq
      rw [hxl] at hveq
      exact hv hveq.symm

/-- Claim C2: when the version is not already installed, the target is not
blocked by a plain file, the download succeeds, and the MD5 of the downloaded
bytes differs from the release's checksum, `download_release` fails with
`Md5Mismatch`; the target directory is left freshly created and empty (no
extraction happened), and the failed version is still not discoverable by
`find_installed_database` afterwards. -/
theorem claim_C2_checksum_mismatch (env : Env) (root : DirEntries)
    (release : DatabaseRelease) (bytes : List Nat)
    (hfind : find_installed_database root release.version = none)
    (hfile : entryIsFile (getEntry root release.version) = false)
    (hnet : env.net release.url = .ok bytes)
    (hmd5 : env.md5 bytes ≠ release.md5) :
    download_release env root release =
      (.error .Md5Mismatch, setEntry root release.version (.dir [])) ∧
    getEntry (setEntry root release.version (.dir []))
      release.version = some (.dir []) ∧
    find_installed_database (setEntry root release.version (.dir []))
      release.version = none := by
  have hde : download_and_extract_tarball env release.url release.md5 [] =
      (.error .Md5Mismatch, []) := by
    unfold download_and_extract_tarball
    rw [hnet]
    simp [hmd5]
  refine ⟨?_, getEntry_setEntry_self _ _ _, find_after_reset _ _ hfind⟩
  unfold download_release
  rw [hfind]
  simp only [hfile, Bool.false_eq_true, if_false, hde, setEntry_setEntry]

/-- Witness for C2: mismatching hashes on an empty root. -/
theorem claim_C2_checksum_mismatch_witness :
    download_release ⟨fun _ => .ok [1], fun _ => "aaa", fun _ => some markersDir,
        false⟩ [] ⟨"vX", "uX", "bbb", "2024-01-01"⟩ =
      (.error .Md5Mismatch, setEntry [] "vX" (.dir [])) ∧
    getEntry (setEntry [] "vX" (.dir [])) "vX" = some (.dir []) ∧
    find_installed_database (setEntry [] "vX" (.dir [])) "vX" = none :=
  claim_C2_checksum_mismatch
    ⟨fun _ => .ok [1], fun _ => "aaa", fun _ => some markersDir, false⟩ []
    ⟨"vX", "uX", "bbb", "2024-01-01"⟩ [1] rfl rfl rfl (by decide)

/-- Claim C8, counterexample: with a successful download, matching checksum
and successful extraction, a failure to remove the temporary file makes the
install fail with an IO error instead of succeeding —
`download_and_extract_tarball` propagates the `fs::remove_file` error with
`?`. -/
theorem claim_C8_counterexample :
    envRm.net relRm.url = .ok [1] ∧
    envRm.md5 [1] = relRm.md5 ∧
    envRm.extract [1] = some markersDir ∧
    envRm.removeTempFails = true ∧
    (download_release envRm [] relRm).1 = .error .IoError :=
  ⟨rfl, rfl, rfl, rfl, rfl⟩

/-- Claim C8, amended: after a successful download, checksum verification and
extraction, a failure to remove the temporary downloaded file is fatal: the
install fails with an IO error instead of returning the installed
database. -/
theorem claim_C8_remove_failure_fatal (env : Env) (root : DirEntries)
    (release : DatabaseRelease) (bytes : List Nat) (tree : DirEntries)
    (hfind : find_installed_database root release.version = none)
    (hfile : entryIsFile (getEntry root release.version) = false)
    (hnet : env.net release.url = .ok bytes)
    (hmd5 : env.md5 bytes = release.md5)
    (hext : env.extract bytes = some tree)
    (hrm : env.removeTempFails = true) :
    (download_release env root release).1 = .error .IoError := by
  have hde : download_and_extract_tarball env release.url release.md5 [] =
      (.error .IoError, tree.foldl (fun t p => setEntry t p.1 p.2) []) := by
    unfold download_and_extract_tarball
    rw [hnet]
    simp [hmd5, hext, hrm]
  unfold download_release
  rw [hfind]
  simp only [hfile, Bool.false_eq_true, if_false, hde]

/-- Witness for C8 under `envRm`. -/
theorem claim_C8_remove_failure_fatal_witness :
    (download_release envRm [] relRm).1 = .error .IoError :=
  claim_C8_remove_failure_fatal envRm [] relRm [1] markersDir rfl rfl rfl rfl
    rfl rfl

end Nohuman
